import Mathlib

/-!
Verification development for the d2rmp mod-patcher core (resolver, preprocessor,
runner, D2RMM host API).  JavaScript strings are embedded as `List Char`
(`Str`); the synchronous filesystem is a map from native path strings to disk
entries; each stateful class method becomes a function threading its state
explicitly.  The modelled code is `src/resolver.js`, `src/d2rmm_api.js`,
`src/runner.js` and the preprocessor (`src/unnamed/part_003`).
-/

set_option maxHeartbeats 1000000

/-- Character-list strings: the shallow embedding of JavaScript strings. -/
abbrev Str := List Char

/-- Splitting on a single separator character, mirroring JS `s.split(sep)`
(`"ab".split("b") = ["a", ""]`, `"".split(c) = [""]`). -/
def splitOnChar (c : Char) : Str → List Str
  | [] => [[]]
  | x :: xs =>
    match splitOnChar c xs with
    | [] => [[]]
    | y :: ys => if x = c then [] :: y :: ys else (x :: y) :: ys

/-- Joining with a single separator character, mirroring JS `parts.join(sep)`. -/
def intercalateChar (c : Char) : List Str → Str
  | [] => []
  | [p] => p
  | p :: q :: ps => p ++ c :: intercalateChar c (q :: ps)

/-- Two-dot path segment `..`. -/
def dotDot : Str := ['.', '.']

/-- One step of posix path normalization over reversed segment stack, used to
model node `path.join`'s segment resolution (`..` pops, `.` and empty segments
vanish; in an absolute path a leading `..` collapses into the root). -/
def segStep (isAbs : Bool) (acc : List Str) (seg : Str) : List Str :=
  if seg = [] ∨ seg = ['.'] then acc
  else if seg = dotDot then
    match acc with
    | [] => if isAbs then [] else [dotDot]
    | a :: rest => if a = dotDot then dotDot :: a :: rest else rest
  else seg :: acc

/-- Model of node `path.join(a, b)` on a posix host (the deployment platform of
the tool): concatenate, then normalize `.`/`..`/empty segments. -/
def joinPath (a b : String) : String :=
  let segs := splitOnChar '/' a.toList ++ splitOnChar '/' b.toList
  let isAbs : Bool :=
    match a.toList with
    | '/' :: _ => true
    | _ => false
  let core := (segs.foldl (segStep isAbs) []).reverse
  String.mk ((if isAbs then ['/'] else []) ++ intercalateChar '/' core)

/-- Model of `normalizePath` from `utils` (`convertPath(_path, 'posix')`):
separator conversion `\` to `/`; drive-letter rewriting is irrelevant here
because every path the core builds is already posix. -/
def normalizePath (s : String) : String :=
  String.mk (s.toList.map fun c => if c = '\\' then '/' else c)

/-- Model of `nativePath` from `utils`: on a posix host `convertPath` to the
host flavour is the same posix conversion. -/
def nativePath (s : String) : String := normalizePath s

/-- Model of `FileResolver.getPath(a, b)` = `normalizePath(path.join(a, b))`. -/
def getPath (a b : String) : String := normalizePath (joinPath a b)

/-- Model of `FileResolver.getNativePath(a, b)` = `nativePath(getPath(a, b))`. -/
def getNativePath (a b : String) : String := nativePath (getPath a b)

/-- Model of node `path.resolve(base, '..')` for an absolute normalized
`base`: the parent directory. -/
def resolveParentDir (base : String) : String := joinPath base ".."

/-- Model of node `path.dirname` on a normalized posix path. -/
def dirname (s : String) : String :=
  let segs := (splitOnChar '/' s.toList).dropLast
  match segs with
  | [] => "."
  | [[]] => "/"
  | _ => String.mk (intercalateChar '/' segs)

/-- Disk entry at a native path: absent (ENOENT), a readable file, or a file
that exists but fails to read (any non-ENOENT I/O error). -/
inductive DiskEntry where
  | absent
  | file (content : Str)
  | unreadable
deriving Repr, DecidableEq

/-- The synchronous filesystem: a map from native paths to entries. -/
abbrev Disk := String → DiskEntry

/-- Model of `fs.existsSync`. -/
def Disk.existsSync (d : Disk) (p : String) : Bool :=
  match d p with
  | .absent => false
  | _ => true

/-- Dropping one leading U+FEFF, mirroring `content.replace(/^﻿/, '')`
in `readFileSyncNoThrow`. -/
def stripBOM : Str → Str
  | [] => []
  | c :: cs => if c = '﻿' then cs else c :: cs

/-- Model of `readFileSyncNoThrow` from `utils`: `(content, err)` where ENOENT
yields `(none, false)`, success `(some content, false)` (BOM stripped), and any
other failure `(none, true)`. -/
def readFileSyncNoThrow (d : Disk) (filepath : String) : Option Str × Bool :=
  match d filepath with
  | .absent => (none, false)
  | .file c => (some (stripBOM c), false)
  | .unreadable => (none, true)

/-- JS truthiness of a nullable string: `null` and the empty string are falsy.
This is the test `if (info.content)` applies in `readAutoInputFileSync`. -/
def truthyContent : Option Str → Bool
  | none => false
  | some s => !s.isEmpty

/-- Output-side record of the resolver (`FileResolverOutputInfo`). -/
structure FileResolverOutputInfo where
  relPath : String
  realPath : String
  dirty : Bool
  evicted : Bool
  content : Option Str
deriving Repr, DecidableEq

/-- Input-side record of the resolver (`FileResolverInputInfo`); `realPath` is
`none` when the path exists under no input root. -/
structure FileResolverInputInfo where
  relPath : String
  realPath : Option String
  content : Option Str
deriving Repr, DecidableEq

/-- State of `FileResolver`: both memo maps are association lists keyed by the
normalized relative path, in insertion order (JS object property order). -/
structure FileResolver where
  outputPath : String
  inputPaths : List String
  outputMap : List (String × FileResolverOutputInfo)
  inputMap : List (String × FileResolverInputInfo)
  nextStringID : Int
deriving Repr, DecidableEq

/-- First-match association-list lookup (JS object property read). -/
def lookupAssoc {α : Type} (m : List (String × α)) (k : String) : Option α :=
  match m with
  | [] => none
  | (k', v) :: t => if k' = k then some v else lookupAssoc t k

/-- Association-list write with JS object semantics: an existing key keeps its
position, a new key is appended. -/
def setAssoc {α : Type} (m : List (String × α)) (k : String) (v : α) : List (String × α) :=
  match m with
  | [] => [(k, v)]
  | (k', v') :: t => if k' = k then (k', v) :: t else (k', v') :: setAssoc t k v

/-- Model of the `FileResolver` constructor plus `init()`:
`Array.from(new Set([userInputPath, baseInputPath])).filter(s => s)`. -/
def FileResolver.new (outputPath : String) (baseInputPath userInputPath : Option String) :
    FileResolver :=
  let cands := [userInputPath, baseInputPath].eraseDups.filterMap id
  { outputPath := outputPath
    inputPaths := cands.filter (fun s => !s.isEmpty)
    outputMap := []
    inputMap := []
    nextStringID := -1 }

/-- Model of `FileResolver.resolveImplicitOutput`: memoized creation of the
output record; `evicted` is the on-disk existence at first touch. -/
def FileResolver.resolveImplicitOutput (d : Disk) (r : FileResolver) (mixedModResPath : String) :
    FileResolverOutputInfo × FileResolver :=
  let outputRelPath := normalizePath mixedModResPath
  match lookupAssoc r.outputMap outputRelPath with
  | some info => (info, r)
  | none =>
    let realPath := getNativePath r.outputPath outputRelPath
    let info : FileResolverOutputInfo :=
      { relPath := outputRelPath, realPath := realPath, dirty := false,
        evicted := d.existsSync realPath, content := none }
    (info, { r with outputMap := setAssoc r.outputMap outputRelPath info })

/-- Model of `FileResolver.resolveImplicitInput`: memoized search of the input
roots in priority order, first existing candidate wins. -/
def FileResolver.resolveImplicitInput (d : Disk) (r : FileResolver) (mixedAnyRelPath : String) :
    FileResolverInputInfo × FileResolver :=
  let inputRelPath := normalizePath mixedAnyRelPath
  match lookupAssoc r.inputMap inputRelPath with
  | some info => (info, r)
  | none =>
    let cands := r.inputPaths.map (fun inputPath => getNativePath inputPath inputRelPath)
    let info : FileResolverInputInfo :=
      { relPath := inputRelPath, realPath := cands.find? (fun c => d.existsSync c),
        content := none }
    (info, { r with inputMap := setAssoc r.inputMap inputRelPath info })

/-- Result of `readAutoInputFileSync`: either the reload of evicted output
content threw, or the JS triple `[content, err, info]` was returned (`errFlag`
tells whether `err` was non-null). -/
inductive RAResult where
  | thrown
  | ret (content : Option Str) (errFlag : Bool)
deriving Repr, DecidableEq

/-- Tail of `readAutoInputFileSync` after the evicted-output reload: forward
truthy output content, else fall back to the input side.  `reads` accumulates
the native paths handed to `readFileSyncNoThrow` so far. -/
def readAutoAfterOutput (d : Disk) (r : FileResolver) (mixedAnyRelPath : String)
    (outputInfo : FileResolverOutputInfo) (reads : List String) :
    RAResult × FileResolver × List String :=
  if truthyContent outputInfo.content then
    (.ret outputInfo.content false, r, reads)
  else
    let pr := FileResolver.resolveImplicitInput d r mixedAnyRelPath
    let inputInfo := pr.1
    let r := pr.2
    if truthyContent inputInfo.content then
      (.ret inputInfo.content false, r, reads)
    else
      match inputInfo.realPath with
      | none => (.ret none false, r, reads)
      | some rp =>
        let re := readFileSyncNoThrow d rp
        let inputInfo := if re.2 then inputInfo else { inputInfo with content := re.1 }
        let r := { r with inputMap := setAssoc r.inputMap (normalizePath mixedAnyRelPath) inputInfo }
        (.ret re.1 re.2, r, reads ++ [rp])

/-- Model of `FileResolver.readAutoInputFileSync`.  Note the source reloads the
on-disk content whenever `outputInfo.evicted` holds (the flag is never
cleared), overwriting any tracked content, and throws when that reload fails;
the third component lists every disk read performed by the call. -/
def FileResolver.readAutoInputFileSync (d : Disk) (r0 : FileResolver) (mixedAnyRelPath : String) :
    RAResult × FileResolver × List String :=
  let pr := FileResolver.resolveImplicitOutput d r0 mixedAnyRelPath
  let outputInfo := pr.1
  let r1 := pr.2
  if outputInfo.evicted then
    let re := readFileSyncNoThrow d outputInfo.realPath
    if re.2 then
      (.thrown, r1, [outputInfo.realPath])
    else
      let outputInfo := { outputInfo with content := re.1 }
      let r1 := { r1 with outputMap := setAssoc r1.outputMap (normalizePath mixedAnyRelPath) outputInfo }
      readAutoAfterOutput d r1 mixedAnyRelPath outputInfo [outputInfo.realPath]
  else
    readAutoAfterOutput d r1 mixedAnyRelPath outputInfo []

/-- Model of `FileResolver.updateOutputFile`: update tracked content, set
`dirty` only when the new content differs (`content !== outputInfo.content`). -/
def FileResolver.updateOutputFile (d : Disk) (r : FileResolver) (mixedModResPath : String)
    (content : Str) : FileResolverOutputInfo × FileResolver :=
  let pr := FileResolver.resolveImplicitOutput d r mixedModResPath
  let outputInfo := pr.1
  let r := pr.2
  if some content ≠ outputInfo.content then
    let outputInfo := { outputInfo with dirty := true, content := some content }
    (outputInfo, { r with outputMap := setAssoc r.outputMap (normalizePath mixedModResPath) outputInfo })
  else
    (outputInfo, r)

/-- Filesystem effect of a flush: the directory creation and the write-back
(`content` is the record's tracked content, possibly still `null`). -/
inductive FlushEv where
  | mkdir (dir : String)
  | write (path : String) (content : Option Str)
deriving Repr, DecidableEq

/-- Outcome of `flush1Ex`: whether it threw, the record as mutated by the call
(the `dirty` flag is cleared before the escape check, so the mutation survives
a throw), and the filesystem effects performed. -/
structure Flush1Result where
  threw : Bool
  info : FileResolverOutputInfo
  events : List FlushEv
deriving Repr, DecidableEq

/-- Model of `FileResolver.flush1Ex`: early return when clean; otherwise clear
`dirty`, then throw unless the real path starts with
`path.resolve(outputPath, '..')` (string prefix test), else mkdir the parent
and write the content back. -/
def flush1Ex (outputPath : String) (outputInfo : FileResolverOutputInfo) : Flush1Result :=
  if !outputInfo.dirty then
    { threw := false, info := outputInfo, events := [] }
  else
    let outputInfo := { outputInfo with dirty := false }
    if !((resolveParentDir outputPath).toList.isPrefixOf outputInfo.realPath.toList) then
      { threw := true, info := outputInfo, events := [] }
    else
      { threw := false, info := outputInfo,
        events := [.mkdir (dirname outputInfo.realPath), .write outputInfo.realPath outputInfo.content] }

/-- Model of `FileResolver.flush1`: resolve the output record then `flush1Ex`,
storing the mutated record back.  Returns `none` when the flush threw. -/
def FileResolver.flush1 (d : Disk) (r : FileResolver) (mixedModResPath : String) :
    Option (FileResolver × List FlushEv) :=
  let pr := FileResolver.resolveImplicitOutput d r mixedModResPath
  let fr := flush1Ex r.outputPath pr.1
  let r := { pr.2 with outputMap := setAssoc pr.2.outputMap (normalizePath mixedModResPath) fr.info }
  if fr.threw then none else some (r, fr.events)

/-- Model of `FileResolver.writeOutputFile`: `updateOutputFile` then `flush1`
of the same path. -/
def FileResolver.writeOutputFile (d : Disk) (r : FileResolver) (mixedModResPath : String)
    (content : Str) : Option (FileResolver × List FlushEv) :=
  let pr := FileResolver.updateOutputFile d r mixedModResPath content
  FileResolver.flush1 d pr.2 mixedModResPath

/-- The loop body of `FileResolver.flush` over `Object.entries` of the output
map in property order: flush every dirty record, propagating the first thrown
escape error (`none`). -/
def flushLoop (outputPath : String) : List (String × FileResolverOutputInfo) →
    Option (List (String × FileResolverOutputInfo) × List FlushEv)
  | [] => some ([], [])
  | (p, info) :: rest =>
    if info.dirty then
      let fr := flush1Ex outputPath info
      if fr.threw then none
      else
        match flushLoop outputPath rest with
        | none => none
        | some (rest', evs) => some ((p, fr.info) :: rest', fr.events ++ evs)
    else
      match flushLoop outputPath rest with
      | none => none
      | some (rest', evs) => some ((p, info) :: rest', evs)

/-- The designated id-ledger path `kNextStringIDPath` of `resolver.js`. -/
def kNextStringIDPath : String := "local/lng/next_string_id.txt"

/-- Splitting a string around its first maximal run of decimal digits: the
model of what the regex `[0-9]+` matches in `parseNextStringID` and
`updateNextStringID`.  Returns `(pre, run, post)` with `pre` digit-free, `run`
nonempty all-digits, and `post` not starting with a digit. -/
def firstDigitRun : Str → Option (Str × Str × Str)
  | [] => none
  | c :: cs =>
    if c.isDigit then
      some ([], (c :: cs).takeWhile Char.isDigit, (c :: cs).dropWhile Char.isDigit)
    else
      match firstDigitRun cs with
      | none => none
      | some (pre, run, post) => some (c :: pre, run, post)

/-- Numeric value of a digit run, the model of `parseInt` on an all-digit
match. -/
def natOfDigits (run : Str) : Nat :=
  run.foldl (fun acc c => acc * 10 + (c.toNat - '0'.toNat)) 0

/-- Model of `parseNextStringID`: value of the first digit run, or an error
(`Invalid NextStringID File`) when the content has no digits. -/
def parseNextStringID (content : Str) : Option Nat :=
  match firstDigitRun content with
  | none => none
  | some (_, run, _) => some (natOfDigits run)

/-- Model of `updateNextStringID`: `content.replace(/[0-9]+/, '' + newID)` —
replace only the first maximal digit run, leave everything else unchanged
(no-op when the content has no digits). -/
def updateNextStringID (content : Str) (newID : Nat) : Str :=
  match firstDigitRun content with
  | none => content
  | some (pre, _, post) => pre ++ (toString newID).toList ++ post

/-- Model of `FileResolver.acquireNextStringID`: lazily load the counter from
the ledger via `readAutoInputFileSync` on the first call (throwing on read
error, on a missing ledger, or on digit-free ledger content), then return the
current value and post-increment.  `none` models a throw. -/
def FileResolver.acquireNextStringID (d : Disk) (r : FileResolver) :
    Option (Int × FileResolver) :=
  if r.nextStringID < 0 then
    match FileResolver.readAutoInputFileSync d r kNextStringIDPath with
    | (.thrown, _, _) => none
    | (.ret content err, r', _) =>
      if err then none
      else
        match content with
        | none => none
        | some s =>
          match parseNextStringID s with
          | none => none
          | some v => some ((v : Int), { r' with nextStringID := (v : Int) + 1 })
  else
    some (r.nextStringID, { r with nextStringID := r.nextStringID + 1 })

/-- Model of `FileResolver.flushNextStringID`: no-op while the counter was
never loaded; otherwise re-read the ledger through `readAutoInputFileSync`
(throwing on error or missing content) and `writeOutputFile` the content with
its first digit run replaced by the final counter value. -/
def FileResolver.flushNextStringID (d : Disk) (r : FileResolver) :
    Option (FileResolver × List FlushEv) :=
  if r.nextStringID < 0 then some (r, [])
  else
    match FileResolver.readAutoInputFileSync d r kNextStringIDPath with
    | (.thrown, _, _) => none
    | (.ret content err, r', _) =>
      if err then none
      else
        match content with
        | none => none
        | some s =>
          FileResolver.writeOutputFile d r' kNextStringIDPath
            (updateNextStringID s r.nextStringID.toNat)

/-- Model of `FileResolver.flush`: flush every dirty output record in map
order, then `flushNextStringID`; `none` models a propagated throw. -/
def FileResolver.flush (d : Disk) (r : FileResolver) :
    Option (FileResolver × List FlushEv) :=
  match flushLoop r.outputPath r.outputMap with
  | none => none
  | some (map', evs) =>
    match FileResolver.flushNextStringID d { r with outputMap := map' } with
    | none => none
    | some (r', evs2) => some (r', evs ++ evs2)

/-- Row of tabular data: a JS object embedded as an association list of
header-name/value pairs with unique keys in insertion order. -/
abbrev TsvRow := List (Str × Str)

/-- JS object property read `row[k]`. -/
def objGet : TsvRow → Str → Option Str
  | [], _ => none
  | (k', v') :: t, k => if k' = k then some v' else objGet t k

/-- JS object property write `row[k] = v`: existing key keeps its position,
new key appended. -/
def objSet : TsvRow → Str → Str → TsvRow
  | [], k, v => [(k, v)]
  | (k', v') :: t, k, v => if k' = k then (k', v) :: t else (k', v') :: objSet t k v

/-- The key `headers[index]` evaluates to in `row[headers[index]] = value`: an
out-of-range JS index gives `undefined`, which stringifies to the property key
`"undefined"`. -/
def headerKeyAt (headers : List Str) (i : Nat) : Str :=
  match headers.get? i with
  | some h => h
  | none => "undefined".toList

/-- The row-building loop of `readTsv`: `for ([index, value] of
rowStr.split('\t').entries()) row[headers[index]] = value`. -/
def readTsvRowAux (headers : List Str) : Nat → TsvRow → List Str → TsvRow
  | _, row, [] => row
  | i, row, v :: vs => readTsvRowAux headers (i + 1) (objSet row (headerKeyAt headers i) v) vs

/-- Parsing one nonempty data line of a TSV file into a row object. -/
def readTsvRow (headers : List Str) (line : Str) : TsvRow :=
  readTsvRowAux headers 0 [] (splitOnChar '\t' line)

/-- The pure content parsing of `SimD2RMM.readTsv`: header line split on tabs,
every blank data line silently dropped, remaining lines parsed positionally. -/
def readTsvContent (content : Str) : List Str × List TsvRow :=
  match splitOnChar '\n' content with
  | [] => ([], [])
  | headersRaw :: rowsRaw =>
    let headers := splitOnChar '\t' headersRaw
    (headers, rowsRaw.filterMap fun rowStr =>
      if rowStr = [] then none else some (readTsvRow headers rowStr))

/-- The pure content production of `SimD2RMM.writeTsv`: a missing field
serializes as the empty string (`row[header] ?? ''`), and one trailing blank
line is appended (`[headersRaw, ...rowsRaw, ''].join('\n')`). -/
def writeTsvContent (headers : List Str) (rows : List TsvRow) : Str :=
  let headersRaw := intercalateChar '\t' headers
  let rowsRaw := rows.map fun row =>
    intercalateChar '\t' (headers.map fun header => (objGet row header).getD [])
  intercalateChar '\n' (headersRaw :: (rowsRaw ++ [[]]))

/-- Abstract structured value produced by the external JSON/JSONC parser. -/
inductive JsonVal where
  | val (tag : Nat)
deriving Repr, DecidableEq

/-- Outcome of a `SimD2RMM` boundary read call.  `retError` models the
`return error` branches of `readJson`/`readTsv` which hand the caught error
object back to the caller as the return value instead of throwing it. -/
inductive BoundaryOutcome (α : Type) where
  | threwIoError
  | threwNotFound
  | threwParse
  | retError
  | retValue (a : α)
deriving Repr, DecidableEq

/-- Model of `SimD2RMM.readTxt`: a read error or a reload throw propagates as
a thrown error, a missing file throws `Input File Not Found`, and the content
is returned (`content || ''` maps possible falsy content to itself here since
the content is a string). -/
def SimD2RMM.readTxt (d : Disk) (r : FileResolver) (txtPath : String) :
    BoundaryOutcome Str × FileResolver :=
  match FileResolver.readAutoInputFileSync d r txtPath with
  | (.thrown, r', _) => (.threwIoError, r')
  | (.ret content err, r', _) =>
    if err then (.threwIoError, r')
    else
      match content with
      | none => (.threwNotFound, r')
      | some c => (.retValue c, r')

/-- Model of `SimD2RMM.writeTxt`: `updateOutputFile` and nothing else. -/
def SimD2RMM.writeTxt (d : Disk) (r : FileResolver) (txtPath : String) (content : Str) :
    FileResolver :=
  (FileResolver.updateOutputFile d r txtPath content).2

/-- Model of `SimD2RMM.readJson`, parameterized by the external
`tryParseJSON` collaborator: a read error is RETURNED to the caller
(`return error`), a missing file throws `Input File Not Found`, a parse
failure throws, otherwise the parsed value is returned. -/
def SimD2RMM.readJson (tryParse : Str → Option JsonVal) (d : Disk) (r : FileResolver)
    (jsonPath : String) : BoundaryOutcome JsonVal × FileResolver :=
  match FileResolver.readAutoInputFileSync d r jsonPath with
  | (.thrown, r', _) => (.threwIoError, r')
  | (.ret content err, r', _) =>
    if err then (.retError, r')
    else
      match content with
      | none => (.threwNotFound, r')
      | some c =>
        match tryParse c with
        | none => (.threwParse, r')
        | some j => (.retValue j, r')

/-- Model of `SimD2RMM.readTsv`: a read error is RETURNED to the caller
(`return error`), a missing file throws `Input File not Found`, otherwise the
content parses into headers and rows. -/
def SimD2RMM.readTsv (d : Disk) (r : FileResolver) (tsvPath : String) :
    BoundaryOutcome (List Str × List TsvRow) × FileResolver :=
  match FileResolver.readAutoInputFileSync d r tsvPath with
  | (.thrown, r', _) => (.threwIoError, r')
  | (.ret content err, r', _) =>
    if err then (.retError, r')
    else
      match content with
      | none => (.threwNotFound, r')
      | some c => (.retValue (readTsvContent c), r')

/-- Model of `SimD2RMM.writeTsv`: serialize and `updateOutputFile`. -/
def SimD2RMM.writeTsv (d : Disk) (r : FileResolver) (tsvPath : String)
    (headers : List Str) (rows : List TsvRow) : FileResolver :=
  (FileResolver.updateOutputFile d r tsvPath (writeTsvContent headers rows)).2

/-- JS `\s` whitespace test restricted to the ASCII whitespace characters plus
NBSP and BOM (the Unicode space separators never appear in the scripts the
preprocessor handles). -/
def isJsSpace (c : Char) : Bool :=
  c = ' ' || c = '\t' || c = '\r' || c = '\n' || c.toNat = 11 || c.toNat = 12 ||
  c.toNat = 160 || c.toNat = 65279

/-- Stripping an exact literal prefix, the model of a literal regex fragment. -/
def stripLit : Str → Str → Option Str
  | [], cs => some cs
  | _ :: _, [] => none
  | p :: ps, c :: cs => if c = p then stripLit ps cs else none

/-- Matching `[\s]+` at the start: at least one whitespace character, consumed
greedily. -/
def stripWs1 : Str → Option Str
  | [] => none
  | c :: cs => if isJsSpace c then some (cs.dropWhile isJsSpace) else none

/-- Model of `rePreprocessor` = `^///[\s]+#(pragma)[\s]+(.*)`: on success
returns the directive payload (capture 2). -/
def matchPreprocessor (line : Str) : Option Str :=
  match stripLit "///".toList line with
  | none => none
  | some s1 =>
    match stripWs1 s1 with
    | none => none
    | some s2 =>
      match stripLit "#pragma".toList s2 with
      | none => none
      | some s3 => stripWs1 s3

/-- A recognized `lib` pragma command. -/
inductive PragmaLibCmd where
  | libBegin (libname : Str)
  | libEnd
deriving Repr, DecidableEq

/-- Model of `rePreprocessorPragmaLib` = `^(lib-begin|lib-end)[\s]*(.*)`
applied to the directive payload; the alternation tries `lib-begin` first and
for `lib-begin` the library name is capture 2. -/
def matchPragmaLib (s : Str) : Option PragmaLibCmd :=
  match stripLit "lib-begin".toList s with
  | some rest => some (.libBegin (rest.dropWhile isJsSpace))
  | none =>
    match stripLit "lib-end".toList s with
    | some _ => some .libEnd
    | none => none

/-- Full per-line classification of the preprocessing loop: `none` when the
line carries no effective `lib` pragma. -/
def classifyPragmaLine (line : Str) : Option PragmaLibCmd :=
  match matchPreprocessor line with
  | none => none
  | some payload => matchPragmaLib payload

/-- A completed library block as collected by `LineBlockSet.add` after
`LineBlock.init`: half-open line range and the `$`-prefixed library name. -/
structure LibBlock where
  lineBegin : Nat
  lineEnd : Nat
  externName : Str
deriving Repr, DecidableEq

/-- The scanning loop of `preprocessScript` over the lines: the depth-1
`LineRunStack` throws on overflow (a second `lib-begin` while one is open) and
on underflow (a `lib-end` with no open block) — both modelled as `none`.  The
loop performs NO end-of-input check: an entry left on the stack is simply
returned open. -/
def ppScanAux : List Str → Nat → List (Nat × Str) → List LibBlock →
    Option (List LibBlock × List (Nat × Str))
  | [], _, stack, blocks => some (blocks, stack)
  | line :: rest, i, stack, blocks =>
    match classifyPragmaLine line with
    | none => ppScanAux rest (i + 1) stack blocks
    | some (.libBegin libname) =>
      if stack.length ≥ 1 then none
      else ppScanAux rest (i + 1) ((i, libname) :: stack) blocks
    | some .libEnd =>
      match stack with
      | [] => none
      | (b, libname) :: stack' =>
        ppScanAux rest (i + 1) stack' (blocks ++ [⟨b, i + 1, '$' :: libname⟩])

/-- The synthesized strict-mode prologue line `'use strict';`. -/
def useStrictPrologue : Str :=
  Char.ofNat 39 :: "use strict".toList ++ [Char.ofNat 39, ';']

/-- Model of `reUseStrict`.  The source builds it with a template literal, so
`[\s]*` collapses to the character class `[s]*`: after the semicolon only a
run of letter `s` may follow. -/
def isUseStrictLine (line : Str) : Bool :=
  match line with
  | [] => false
  | q1 :: rest =>
    if q1 = '"' || q1.toNat = 39 then
      match stripLit "use strict".toList rest with
      | some (q2 :: rest2) =>
        if q2 = '"' || q2.toNat = 39 then
          match rest2 with
          | ';' :: tail => tail.all (fun c => c = 's')
          | _ => false
        else false
      | _ => false
    else false

/-- One ordered script segment produced by preprocessing: inline code with its
diagnostic line offset, or a named external-library reference. -/
inductive ScriptSegment where
  | inline (code : Str) (lineOffset : Int)
  | externRef (name : Str)
deriving Repr, DecidableEq

/-- Model of `addCodeBlock` inside `LineBlockSet.complete`: an empty range
contributes nothing; otherwise the lines are coalesced into one inline
segment, with a strict-mode prologue prepended (and the line offset shifted by
one) when the first line fails the `reUseStrict` test. -/
def addCodeBlock (lines : List Str) (off : Int) (b e : Nat) : List ScriptSegment :=
  if e ≤ b then []
  else
    let blockLines := (lines.drop b).take (e - b)
    if isUseStrictLine ((lines.drop b).headD []) then
      [.inline (intercalateChar '\n' blockLines) (off + b)]
    else
      [.inline (intercalateChar '\n' (useStrictPrologue :: blockLines)) (off + b - 1)]

/-- Model of the block fold of `LineBlockSet.complete`: inline code up to each
library block, one `externRef` segment per block, then the tail code block.
The source's `if (block.disableBlock)` comment-out pass reads a property that
is never set (the field is spelled `disableCode`), so it never runs and is
omitted here; the excision of block lines happens through the range split
alone. -/
def completeAux (lines : List Str) (off : Int) : Nat → List LibBlock → List ScriptSegment
  | nextCodeStart, [] => addCodeBlock lines off nextCodeStart lines.length
  | nextCodeStart, blk :: rest =>
    addCodeBlock lines off nextCodeStart blk.lineBegin ++
      .externRef blk.externName :: completeAux lines off blk.lineEnd rest

/-- Model of `preprocessScript` (`filename`/`columnOffset` carry no behaviour
and are dropped): split into lines, scan directives, assemble segments;
`none` models a thrown directive error. -/
def preprocessScript (code : Str) (lineOffset : Int) : Option (List ScriptSegment) :=
  let lines := splitOnChar '\n' code
  match ppScanAux lines 0 [] [] with
  | none => none
  | some (blocks, _) => some (completeAux lines lineOffset 0 blocks)

/-- Test for a library-reference segment. -/
def isExternSeg : ScriptSegment → Bool
  | .externRef _ => true
  | .inline _ _ => false

/-- Reference scan of the pragma-directive sequence alone: simulate the
depth-limit-1 stack, failing exactly when the stack would; returns the number
of completed pairs and the final depth. -/
def dirDepthScan : Nat → List PragmaLibCmd → Option (Nat × Nat)
  | depth, [] => some (0, depth)
  | depth, .libBegin _ :: rest =>
    if depth ≥ 1 then none else dirDepthScan 1 rest
  | depth, .libEnd :: rest =>
    match depth with
    | 0 => none
    | _ + 1 => (dirDepthScan 0 rest).map (fun pr => (pr.1 + 1, pr.2))

/-- The pragma directives of a line list, in order. -/
def dirSeq (lines : List Str) : List PragmaLibCmd := lines.filterMap classifyPragmaLine

/-- Per-mod data as the orchestrator loop observes it: whether `mod.json`
loaded, whether `mod.js` loaded, and whether the script's execution threw an
uncaught error (the scripts themselves are abstracted to that outcome). -/
structure ModSpec where
  name : String
  hasManifest : Bool
  hasJs : Bool
  scriptThrows : Bool
deriving Repr, DecidableEq

/-- A mod reaches script execution iff both its manifest and script loaded. -/
def modRuns (m : ModSpec) : Bool := m.hasManifest && m.hasJs

/-- Accumulated observable state of the mod loop in `runD2RMMTask`: which mods
had their scripts executed (in order), the success/skip counters, and whether
the loop ended early through a script error (`break`). -/
structure LoopResult where
  executed : List ModSpec
  successModsCount : Nat
  skipModsCount : Nat
  aborted : Bool
deriving Repr, DecidableEq

/-- Model of the `for` loop of `runD2RMMTask`: a missing manifest or missing
script skips the mod, a script error breaks out of the loop, otherwise the mod
counts as a success. -/
def runModsLoop : List ModSpec → LoopResult
  | [] => { executed := [], successModsCount := 0, skipModsCount := 0, aborted := false }
  | m :: ms =>
    if !m.hasManifest then
      let r := runModsLoop ms
      { r with skipModsCount := r.skipModsCount + 1 }
    else if !m.hasJs then
      let r := runModsLoop ms
      { r with skipModsCount := r.skipModsCount + 1 }
    else if m.scriptThrows then
      { executed := [m], successModsCount := 0, skipModsCount := 0, aborted := true }
    else
      let r := runModsLoop ms
      { r with executed := m :: r.executed, successModsCount := r.successModsCount + 1 }

/-- Observable outcome of `runD2RMMTask` after the mod loop: the resolver is
flushed exactly once (`resolver.flush()` on the line after the loop,
unconditionally), and any count shortfall reports the run failed through
`fatal`, which exits with a non-zero code. -/
structure TaskResult where
  loop : LoopResult
  flushCount : Nat
  failed : Bool
deriving Repr, DecidableEq

/-- Model of `runD2RMMTask` restricted to its mod-pass orchestration. -/
def runD2RMMTask (mods : List ModSpec) : TaskResult :=
  let lr := runModsLoop mods
  { loop := lr
    flushCount := 1
    failed := !(lr.successModsCount + lr.skipModsCount == mods.length) }

theorem lookupAssoc_setAssoc {α : Type} (m : List (String × α)) (k : String) (v : α) :
    lookupAssoc (setAssoc m k v) k = some v := by
  induction m with
  | nil => simp [setAssoc, lookupAssoc]
  | cons e t ih =>
    by_cases h : e.1 = k
    · simp [setAssoc, lookupAssoc, h]
    · simp [setAssoc, lookupAssoc, h, ih]

theorem resolveImplicitOutput_of_mem (d : Disk) (r : FileResolver) (p : String)
    (i : FileResolverOutputInfo) (h : lookupAssoc r.outputMap (normalizePath p) = some i) :
    FileResolver.resolveImplicitOutput d r p = (i, r) := by
  unfold FileResolver.resolveImplicitOutput
  simp [h]

theorem resolveImplicitOutput_lookup (d : Disk) (r : FileResolver) (p : String) :
    lookupAssoc (FileResolver.resolveImplicitOutput d r p).2.outputMap (normalizePath p) =
      some (FileResolver.resolveImplicitOutput d r p).1 := by
  unfold FileResolver.resolveImplicitOutput
  cases h : lookupAssoc r.outputMap (normalizePath p) with
  | some info => simp [h]
  | none => simp [h, lookupAssoc_setAssoc]

theorem updateOutputFile_of_unchanged (d : Disk) (r' : FileResolver) (p : String) (c : Str)
    (i : FileResolverOutputInfo)
    (h : FileResolver.resolveImplicitOutput d r' p = (i, r'))
    (hc : i.content = some c) :
    FileResolver.updateOutputFile d r' p c = (i, r') := by
  unfold FileResolver.updateOutputFile
  rw [h]
  simp [hc]

/-- C6: `write(P, C)` (`updateOutputFile`) leaves the tracked content at
exactly `C`, sets the dirty flag iff `C` differed from the previously tracked
content (keeping an already-set flag), and an immediately repeated identical
write is a complete no-op: it returns the same record and the same resolver
state, changing neither the dirty flag nor the tracked content. -/
theorem c6_update_dirty_iff_change (d : Disk) (r : FileResolver) (p : String) (c : Str) :
    (FileResolver.updateOutputFile d r p c).1.content = some c ∧
    (FileResolver.updateOutputFile d r p c).1.dirty =
      ((FileResolver.resolveImplicitOutput d r p).1.dirty ||
        decide ((FileResolver.resolveImplicitOutput d r p).1.content ≠ some c)) ∧
    FileResolver.updateOutputFile d (FileResolver.updateOutputFile d r p c).2 p c =
      FileResolver.updateOutputFile d r p c := by
  by_cases h : some c = (FileResolver.resolveImplicitOutput d r p).1.content
  · have hupd : FileResolver.updateOutputFile d r p c =
        ((FileResolver.resolveImplicitOutput d r p).1,
          (FileResolver.resolveImplicitOutput d r p).2) := by
      unfold FileResolver.updateOutputFile
      simp [h]
    have hre : FileResolver.resolveImplicitOutput d
        (FileResolver.updateOutputFile d r p c).2 p =
        ((FileResolver.updateOutputFile d r p c).1,
          (FileResolver.updateOutputFile d r p c).2) := by
      rw [hupd]
      exact resolveImplicitOutput_of_mem _ _ _ _ (resolveImplicitOutput_lookup d r p)
    have hcc : (FileResolver.updateOutputFile d r p c).1.content = some c := by
      rw [hupd]; exact h.symm
    refine ⟨hcc, ?_, ?_⟩
    · rw [hupd]
      simp [← h]
    · exact updateOutputFile_of_unchanged d (FileResolver.updateOutputFile d r p c).2 p c
        (FileResolver.updateOutputFile d r p c).1 hre hcc
  · have hupd : FileResolver.updateOutputFile d r p c =
        ({ (FileResolver.resolveImplicitOutput d r p).1 with dirty := true, content := some c },
          { (FileResolver.resolveImplicitOutput d r p).2 with
              outputMap := setAssoc (FileResolver.resolveImplicitOutput d r p).2.outputMap
                (normalizePath p)
                { (FileResolver.resolveImplicitOutput d r p).1 with
                    dirty := true, content := some c } }) := by
      unfold FileResolver.updateOutputFile
      simp [h]
    have hre : FileResolver.resolveImplicitOutput d (FileResolver.updateOutputFile d r p c).2 p =
        ((FileResolver.updateOutputFile d r p c).1, (FileResolver.updateOutputFile d r p c).2) := by
      refine resolveImplicitOutput_of_mem _ _ _ _ ?_
      rw [hupd]
      exact lookupAssoc_setAssoc _ _ _
    have hcc : (FileResolver.updateOutputFile d r p c).1.content = some c := by
      rw [hupd]
    refine ⟨hcc, ?_, ?_⟩
    · rw [hupd]
      have hne : (FileResolver.resolveImplicitOutput d r p).1.content ≠ some c :=
        fun hc => h hc.symm
      simp [hne]
    · exact updateOutputFile_of_unchanged d (FileResolver.updateOutputFile d r p c).2 p c
        (FileResolver.updateOutputFile d r p c).1 hre hcc

/-- C10: `flush1Ex` clears the record's dirty flag before the escape check and
the write, so the returned record is clean whether the call succeeded or
threw, and flushing the returned record again is a guaranteed no-op (no throw,
no filesystem effect, no further state change). -/
theorem c10_flush_clears_dirty (outputPath : String) (info : FileResolverOutputInfo) :
    (flush1Ex outputPath info).info.dirty = false ∧
    flush1Ex outputPath (flush1Ex outputPath info).info =
      { threw := false, info := (flush1Ex outputPath info).info, events := [] } := by
  obtain ⟨rp, real, dirty, ev, cont⟩ := info
  cases dirty with
  | false => exact ⟨rfl, rfl⟩
  | true =>
    have h1 : flush1Ex outputPath ⟨rp, real, true, ev, cont⟩ =
        (if !((resolveParentDir outputPath).toList.isPrefixOf real.toList) then
          { threw := true, info := ⟨rp, real, false, ev, cont⟩, events := [] }
        else
          { threw := false, info := ⟨rp, real, false, ev, cont⟩,
            events := [.mkdir (dirname real), .write real cont] }) := rfl
    cases hc : (resolveParentDir outputPath).toList.isPrefixOf real.toList with
    | true =>
      rw [h1, if_neg (by rw [hc]; decide)]
      exact ⟨rfl, rfl⟩
    | false =>
      rw [h1, if_pos (by rw [hc]; decide)]
      exact ⟨rfl, rfl⟩

/-- Concrete scenario: the output tree already holds `local/a.txt` with
content `D` before the run (a pre-existing/evicted output file); nothing else
exists on disk. -/
def exDiskEvicted : Disk := fun p => if p = "/out/local/a.txt" then .file "D".toList else .absent

/-- Fresh resolver over output root `/out` and the single input root `/in`. -/
def exResolver : FileResolver := FileResolver.new "/out" (some "/in") none

/-- C1 fails on the code: after a mod writes `C` to the pre-existing path
`local/a.txt`, the very next `readAuto` of that path returns the stale on-disk
content `D` (the unconditional evicted-reload overwrites the tracked write),
and after writing the empty string to a fresh path, `readAuto` does not return
the written empty string but falls through to the input lookup (empty content
is JS-falsy), yielding a not-found `null`. -/
theorem c1_readback_clobbers_write :
    (FileResolver.readAutoInputFileSync exDiskEvicted
        (FileResolver.updateOutputFile exDiskEvicted exResolver "local/a.txt" "C".toList).2
        "local/a.txt").1 = RAResult.ret (some "D".toList) false ∧
    "D".toList ≠ "C".toList ∧
    (FileResolver.readAutoInputFileSync (fun _ => DiskEntry.absent)
        (FileResolver.updateOutputFile (fun _ => DiskEntry.absent) exResolver
          "local/b.txt" []).2
        "local/b.txt").1 = RAResult.ret none false := by
  exact ⟨by decide, by decide, by decide⟩

/-- C5 fails on the code: for a pre-existing (evicted) output path, EVERY
`readAuto` call performs a fresh disk read of the output file — here two
consecutive calls each read `/out/local/a.txt` — because the `evicted` flag is
never cleared after the first reload. -/
theorem c5_reload_every_touch :
    (FileResolver.readAutoInputFileSync exDiskEvicted exResolver "local/a.txt").2.2 =
      ["/out/local/a.txt"] ∧
    (FileResolver.readAutoInputFileSync exDiskEvicted
        (FileResolver.readAutoInputFileSync exDiskEvicted exResolver "local/a.txt").2.1
        "local/a.txt").2.2 = ["/out/local/a.txt"] := by
  exact ⟨by decide, by decide⟩

theorem runModsLoop_throw (ms1 : List ModSpec) (m : ModSpec) (ms2 : List ModSpec)
    (h1 : ∀ m' ∈ ms1, ¬(modRuns m' = true ∧ m'.scriptThrows = true))
    (h2 : modRuns m = true) (h3 : m.scriptThrows = true) :
    (runModsLoop (ms1 ++ m :: ms2)).executed = (runModsLoop ms1).executed ++ [m] ∧
    (runModsLoop (ms1 ++ m :: ms2)).aborted = true := by
  induction ms1 with
  | nil =>
    have hm : m.hasManifest = true := by
      have := h2
      unfold modRuns at this
      exact (Bool.and_eq_true _ _ |>.mp this).1
    have hj : m.hasJs = true := by
      have := h2
      unfold modRuns at this
      exact (Bool.and_eq_true _ _ |>.mp this).2
    simp [runModsLoop, hm, hj, h3]
  | cons m' ms1' ih =>
    have ih' := ih (fun x hx => h1 x (List.mem_cons_of_mem _ hx))
    have hnm' := h1 m' (List.mem_cons_self _ _)
    by_cases hm : m'.hasManifest
    · by_cases hj : m'.hasJs
      · have hruns : modRuns m' = true := by simp [modRuns, hm, hj]
        have hnt : m'.scriptThrows = false := by
          cases ht : m'.scriptThrows
          · rfl
          · exact absurd ⟨hruns, ht⟩ hnm'
        simp only [List.cons_append, runModsLoop, hm, hj, hnt, Bool.not_true,
          Bool.false_eq_true, if_false, ite_false, ite_true]
        simp only [runModsLoop, hm, hj, hnt] at ih' ⊢
        simp [ih'.1, ih'.2]
      · have hj' : m'.hasJs = false := by simpa using hj
        simp only [List.cons_append, runModsLoop, hm, hj', Bool.not_true, Bool.not_false] at ih' ⊢
        simp [ih'.1, ih'.2]
    · have hm' : m'.hasManifest = false := by simpa using hm
      simp only [List.cons_append, runModsLoop, hm', Bool.not_false] at ih' ⊢
      simp [ih'.1, ih'.2]

/-- C2: in every run, (i) once a mod whose script throws is reached (all mods
before it in the order running to completion or being skipped), the executed
mods are exactly those that ran before it plus the throwing mod itself — no
later mod in the order is executed, and the loop is marked aborted; (ii) the
resolver is flushed exactly once after the pass, unconditionally; (iii)
whenever successCount + skipCount < totalCount the run is reported failed
(`fatal`, non-zero exit). -/
theorem c2_run_orchestration :
    (∀ ms1 (m : ModSpec) ms2,
        (∀ m' ∈ ms1, ¬(modRuns m' = true ∧ m'.scriptThrows = true)) →
        modRuns m = true → m.scriptThrows = true →
        (runD2RMMTask (ms1 ++ m :: ms2)).loop.executed = (runModsLoop ms1).executed ++ [m] ∧
        (runD2RMMTask (ms1 ++ m :: ms2)).loop.aborted = true) ∧
    (∀ mods : List ModSpec, (runD2RMMTask mods).flushCount = 1) ∧
    (∀ mods : List ModSpec,
        (runD2RMMTask mods).loop.successModsCount + (runD2RMMTask mods).loop.skipModsCount <
          mods.length →
        (runD2RMMTask mods).failed = true) := by
  refine ⟨?_, fun _ => rfl, ?_⟩
  · intro ms1 m ms2 h1 h2 h3
    exact runModsLoop_throw ms1 m ms2 h1 h2 h3
  · intro mods h
    have hne : (runModsLoop mods).successModsCount + (runModsLoop mods).skipModsCount ≠
        mods.length := Nat.ne_of_lt h
    simp [runD2RMMTask, hne]

def modOk : ModSpec := { name := "ok", hasManifest := true, hasJs := true, scriptThrows := false }

def modBad : ModSpec := { name := "bad", hasManifest := true, hasJs := true, scriptThrows := true }

def modLater : ModSpec :=
  { name := "later", hasManifest := true, hasJs := true, scriptThrows := false }

theorem c2_run_orchestration_witness :
    (runD2RMMTask [modOk, modBad, modLater]).loop.executed =
      (runModsLoop [modOk]).executed ++ [modBad] ∧
    (runD2RMMTask [modOk, modBad, modLater]).loop.aborted = true ∧
    (runD2RMMTask [modOk, modBad, modLater]).flushCount = 1 ∧
    (runD2RMMTask [modOk, modBad, modLater]).failed = true := by
  obtain ⟨h1, h2, h3⟩ := c2_run_orchestration
  obtain ⟨e1, e2⟩ := h1 [modOk] modBad [modLater] (by decide) (by decide) (by decide)
  exact ⟨e1, e2, h2 _, h3 _ (by decide)⟩

/-- Specification of the write-back effects claimed for `flushAll`: two
filesystem events (parent mkdir, then write) per dirty record, in map order,
and nothing for clean records. -/
def specDirtyWriteEvents (m : List (String × FileResolverOutputInfo)) : List FlushEv :=
  m.foldr
    (fun e acc =>
      if e.2.dirty then
        FlushEv.mkdir (dirname e.2.realPath) :: FlushEv.write e.2.realPath e.2.content :: acc
      else acc)
    []

theorem flushLoop_all_pass (outputPath : String)
    (m : List (String × FileResolverOutputInfo))
    (h : ∀ e ∈ m, e.2.dirty = true →
      (resolveParentDir outputPath).toList.isPrefixOf e.2.realPath.toList = true) :
    ∃ m', flushLoop outputPath m = some (m', specDirtyWriteEvents m) := by
  induction m with
  | nil => exact ⟨[], rfl⟩
  | cons e t ih =>
    obtain ⟨t', ht⟩ := ih (fun x hx => h x (List.mem_cons_of_mem _ hx))
    cases hd : e.2.dirty with
    | false =>
      refine ⟨(e.1, e.2) :: t', ?_⟩
      simp [flushLoop, hd, ht, specDirtyWriteEvents]
    | true =>
      have hpass := h e (List.mem_cons_self _ _) hd
      have hpass2 : (resolveParentDir outputPath).data <+: e.2.realPath.data :=
        List.isPrefixOf_iff_prefix.mp hpass
      have hfl : flush1Ex outputPath e.2 =
          { threw := false, info := { e.2 with dirty := false },
            events := [FlushEv.mkdir (dirname e.2.realPath),
              FlushEv.write e.2.realPath e.2.content] } := by
        unfold flush1Ex
        simp [hd, hpass2]
      refine ⟨(e.1, { e.2 with dirty := false }) :: t', ?_⟩
      simp [flushLoop, hd, hfl, ht, specDirtyWriteEvents]

theorem flushLoop_escape (outputPath : String)
    (m : List (String × FileResolverOutputInfo))
    (h : ∃ e ∈ m, e.2.dirty = true ∧
      (resolveParentDir outputPath).toList.isPrefixOf e.2.realPath.toList = false) :
    flushLoop outputPath m = none := by
  induction m with
  | nil => simp at h
  | cons e t ih =>
    obtain ⟨w, hw, hwd, hwp⟩ := h
    rcases List.mem_cons.mp hw with hw1 | hw2
    · subst hw1
      have hwp3 : (resolveParentDir outputPath).data.isPrefixOf w.2.realPath.data = false := hwp
      have hfl : (flush1Ex outputPath w.2).threw = true := by
        unfold flush1Ex
        simp [hwd, hwp3]
      simp [flushLoop, hwd, hfl]
    · have ht := ih ⟨w, hw2, hwd, hwp⟩
      cases hd : e.2.dirty with
      | false => simp [flushLoop, hd, ht]
      | true =>
        cases hth : (flush1Ex outputPath e.2).threw with
        | true => simp [flushLoop, hd, hth]
        | false => simp [flushLoop, hd, hth, ht]

/-- C4 as amended: with the id counter untouched, `flush` writes back exactly
the dirty output records (creating each parent directory first), and it raises
a fatal error exactly for a dirty record whose real path fails the source's
escape check — a string-prefix test against `path.resolve(outputPath, '..')`,
i.e. against the PARENT directory of the output root, not the output root
itself. -/
theorem c4_flush_parent_prefix_guard (d : Disk) (r : FileResolver)
    (hid : r.nextStringID < 0) :
    ((∀ e ∈ r.outputMap, e.2.dirty = true →
        (resolveParentDir r.outputPath).toList.isPrefixOf e.2.realPath.toList = true) →
      ∃ r', FileResolver.flush d r = some (r', specDirtyWriteEvents r.outputMap)) ∧
    ((∃ e ∈ r.outputMap, e.2.dirty = true ∧
        (resolveParentDir r.outputPath).toList.isPrefixOf e.2.realPath.toList = false) →
      FileResolver.flush d r = none) := by
  constructor
  · intro h
    obtain ⟨m', hm⟩ := flushLoop_all_pass r.outputPath r.outputMap h
    have hfin : FileResolver.flushNextStringID d { r with outputMap := m' } =
        some ({ r with outputMap := m' }, []) := by
      unfold FileResolver.flushNextStringID
      simp [hid]
    refine ⟨{ r with outputMap := m' }, ?_⟩
    unfold FileResolver.flush
    rw [hm]
    simp [hfin]
  · intro h
    have hm := flushLoop_escape r.outputPath r.outputMap h
    unfold FileResolver.flush
    rw [hm]

/-- Shared empty disk for the flush scenarios. -/
def exOutDisk : Disk := fun _ => DiskEntry.absent

/-- Resolver over output root `/base/out` holding one dirty record for
`../modinfo.json` — a write the orchestrator itself performs — whose real path
`/base/modinfo.json` lies OUTSIDE the output root. -/
def exEscResolver : FileResolver :=
  (FileResolver.updateOutputFile exOutDisk (FileResolver.new "/base/out" (some "/in") none)
    "../modinfo.json" "M".toList).2

/-- C4 fails as stated: the dirty record for `../modinfo.json` has real path
`/base/modinfo.json`, which is not under the output root `/base/out`, yet
`flush` raises no error and writes the file — the escape check only rejects
paths outside the PARENT of the output root. -/
theorem c4_counterexample :
    (FileResolver.flush exOutDisk exEscResolver).map Prod.snd =
      some [FlushEv.mkdir "/base", FlushEv.write "/base/modinfo.json" (some "M".toList)] ∧
    "/base/out".toList.isPrefixOf "/base/modinfo.json".toList = false := by
  exact ⟨by decide, by decide⟩

/-- Resolver with one ordinary dirty record safely inside the output root. -/
def c4wResolver : FileResolver :=
  (FileResolver.updateOutputFile exOutDisk (FileResolver.new "/base/out" (some "/in") none)
    "data/a.txt" "X".toList).2

theorem c4_flush_parent_prefix_guard_witness :
    ∃ r', FileResolver.flush exOutDisk c4wResolver =
      some (r', specDirtyWriteEvents c4wResolver.outputMap) :=
  (c4_flush_parent_prefix_guard exOutDisk c4wResolver (by decide)).1 (by decide)

theorem ppScanAux_dirDepthScan (lines : List Str) :
    ∀ (i : Nat) (stack : List (Nat × Str)) (blocks : List LibBlock), stack.length ≤ 1 →
      (dirDepthScan stack.length (dirSeq lines) = none →
        ppScanAux lines i stack blocks = none) ∧
      (∀ k dEnd, dirDepthScan stack.length (dirSeq lines) = some (k, dEnd) →
        ∃ blocks2 stack2, ppScanAux lines i stack blocks = some (blocks ++ blocks2, stack2) ∧
          blocks2.length = k ∧ stack2.length = dEnd) := by
  induction lines with
  | nil =>
    intro i stack blocks _
    refine ⟨fun hnone => ?_, fun k dEnd hsome => ?_⟩
    · simp [dirSeq, dirDepthScan] at hnone
    · have h1 : (0, stack.length) = (k, dEnd) := by
        simpa [dirSeq, dirDepthScan] using hsome
      rw [Prod.mk.injEq] at h1
      obtain ⟨hk, hd⟩ := h1
      exact ⟨[], stack, by simp [ppScanAux], by simp [← hk], hd⟩
  | cons line rest ih =>
    intro i stack blocks hlen
    cases hc : classifyPragmaLine line with
    | none =>
      have hds : dirSeq (line :: rest) = dirSeq rest := by
        simp [dirSeq, List.filterMap_cons, hc]
      have hpp : ppScanAux (line :: rest) i stack blocks = ppScanAux rest (i + 1) stack blocks := by
        simp [ppScanAux, hc]
      rw [hds, hpp]
      exact ih (i + 1) stack blocks hlen
    | some cmd =>
      cases cmd with
      | libBegin name =>
        have hds : dirSeq (line :: rest) = .libBegin name :: dirSeq rest := by
          simp [dirSeq, List.filterMap_cons, hc]
        cases stack with
        | nil =>
          have hscan : dirDepthScan (List.length ([] : List (Nat × Str))) (dirSeq (line :: rest)) =
              dirDepthScan 1 (dirSeq rest) := by
            rw [hds]
            simp [dirDepthScan]
          have hpp : ppScanAux (line :: rest) i [] blocks =
              ppScanAux rest (i + 1) [(i, name)] blocks := by
            simp [ppScanAux, hc]
          rw [hscan, hpp]
          exact ih (i + 1) [(i, name)] blocks (by simp)
        | cons s ss =>
          refine ⟨fun _ => ?_, fun k dEnd hsome => ?_⟩
          · simp [ppScanAux, hc]
          · rw [hds] at hsome
            simp [dirDepthScan] at hsome
      | libEnd =>
        have hds : dirSeq (line :: rest) = .libEnd :: dirSeq rest := by
          simp [dirSeq, List.filterMap_cons, hc]
        cases stack with
        | nil =>
          refine ⟨fun _ => ?_, fun k dEnd hsome => ?_⟩
          · simp [ppScanAux, hc]
          · rw [hds] at hsome
            simp [dirDepthScan] at hsome
        | cons s ss =>
          obtain ⟨b, nm⟩ := s
          have hss : ss = [] := by
            cases ss with
            | nil => rfl
            | cons a t => simp at hlen
          subst hss
          have hpp : ppScanAux (line :: rest) i [(b, nm)] blocks =
              ppScanAux rest (i + 1) []
                (blocks ++ [{ lineBegin := b, lineEnd := i + 1, externName := '$' :: nm }]) := by
            simp [ppScanAux, hc]
          have hscan : dirDepthScan (List.length [(b, nm)]) (dirSeq (line :: rest)) =
              (dirDepthScan 0 (dirSeq rest)).map (fun pr => (pr.1 + 1, pr.2)) := by
            rw [hds]
            simp [dirDepthScan]
          rw [hscan, hpp]
          cases hrec : dirDepthScan 0 (dirSeq rest) with
          | none =>
            refine ⟨fun _ => ?_, fun k dEnd hsome => ?_⟩
            · exact (ih (i + 1) [] _ (by simp)).1 (by simpa using hrec)
            · simp at hsome
          | some pr =>
            refine ⟨fun hnone => ?_, fun k dEnd hsome => ?_⟩
            · simp at hnone
            · obtain ⟨b2, s2, heq, hlenb, hlens⟩ :=
                (ih (i + 1) [] _ (by simp)).2 pr.1 pr.2 (by simpa using hrec)
              have hk : pr.1 + 1 = k ∧ pr.2 = dEnd := by
                simpa [Prod.ext_iff] using hsome
              refine ⟨{ lineBegin := b, lineEnd := i + 1, externName := '$' :: nm } :: b2, s2, ?_, ?_, ?_⟩
              · rw [heq]
                simp
              · simp [hlenb, hk.1]
              · rw [hlens, hk.2]

theorem countP_isExternSeg_addCodeBlock (lines : List Str) (off : Int) (b e : Nat) :
    (addCodeBlock lines off b e).countP isExternSeg = 0 := by
  unfold addCodeBlock
  split
  · rfl
  · split <;> simp [isExternSeg]

theorem countP_isExternSeg_completeAux (lines : List Str) (off : Int) :
    ∀ (next : Nat) (blocks : List LibBlock),
      (completeAux lines off next blocks).countP isExternSeg = blocks.length := by
  intro next blocks
  induction blocks generalizing next with
  | nil => simp [completeAux, countP_isExternSeg_addCodeBlock]
  | cons blk rest ih =>
    simp [completeAux, List.countP_append, countP_isExternSeg_addCodeBlock,
      List.countP_cons, isExternSeg, ih]

/-- C3 as amended: a script whose pragma-directive sequence is well formed
except for one final `lib-begin` that is never closed does NOT fail
preprocessing — the unclosed block is silently ignored: `preprocessScript`
returns segments, and the number of library-reference segments equals the
number of COMPLETED directive pairs only (none for the unclosed block, whose
lines stay inside the inline code).  `dirDepthScan ... = some (k, 1)` states
exactly that the directive sequence leaves one block open at end-of-input
after `k` completed pairs. -/
theorem c3_unterminated_block_ignored (code : Str) (off : Int) (k : Nat)
    (h : dirDepthScan 0 (dirSeq (splitOnChar '\n' code)) = some (k, 1)) :
    ∃ segs, preprocessScript code off = some segs ∧ segs.countP isExternSeg = k := by
  obtain ⟨b2, s2, heq, hlenb, _⟩ :=
    (ppScanAux_dirDepthScan (splitOnChar '\n' code) 0 [] [] (by simp)).2 k 1 h
  refine ⟨completeAux (splitOnChar '\n' code) off 0 b2, ?_, ?_⟩
  · unfold preprocessScript
    simp only [List.nil_append] at heq
    simp [heq]
  · rw [countP_isExternSeg_completeAux]
    exact hlenb

/-- A script opening a library block that is never closed. -/
def exUntermScript : Str := "A\n/// #pragma lib-begin L\nB".toList

/-- C3 fails as stated: this script opens a `lib-begin` block never closed by
a `lib-end` (certified by the directive scan ending at depth 1), yet
`preprocessScript` does not throw — it returns segments. -/
theorem c3_counterexample :
    dirDepthScan 0 (dirSeq (splitOnChar '\n' exUntermScript)) = some (0, 1) ∧
    (preprocessScript exUntermScript 0).isSome = true := by
  exact ⟨by decide, by decide⟩

theorem c3_unterminated_block_ignored_witness :
    ∃ segs, preprocessScript exUntermScript 0 = some segs ∧ segs.countP isExternSeg = 0 :=
  c3_unterminated_block_ignored exUntermScript 0 0 (by decide)

/-- The freshly created output record of `resolveImplicitOutput` on a first
touch. -/
def freshOutputInfo (d : Disk) (r : FileResolver) (p : String) : FileResolverOutputInfo :=
  { relPath := normalizePath p
    realPath := getNativePath r.outputPath (normalizePath p)
    dirty := false
    evicted := d.existsSync (getNativePath r.outputPath (normalizePath p))
    content := none }

theorem resolveImplicitOutput_fresh (d : Disk) (r : FileResolver) (p : String)
    (h1 : lookupAssoc r.outputMap (normalizePath p) = none) :
    FileResolver.resolveImplicitOutput d r p =
      (freshOutputInfo d r p,
        { r with outputMap := setAssoc r.outputMap (normalizePath p) (freshOutputInfo d r p) }) := by
  unfold FileResolver.resolveImplicitOutput freshOutputInfo
  simp [h1]

theorem readAuto_absent_all_roots (d : Disk) (r : FileResolver) (p : String)
    (h1 : lookupAssoc r.outputMap (normalizePath p) = none)
    (h2 : d (getNativePath r.outputPath (normalizePath p)) = .absent)
    (h3 : lookupAssoc r.inputMap (normalizePath p) = none)
    (h4 : (r.inputPaths.map (fun root => getNativePath root (normalizePath p))).find?
        (fun c => d.existsSync c) = none) :
    (FileResolver.readAutoInputFileSync d r p).1 = RAResult.ret none false ∧
    (FileResolver.readAutoInputFileSync d r p).2.2 = [] := by
  have hres := resolveImplicitOutput_fresh d r p h1
  have hex : d.existsSync (getNativePath r.outputPath (normalizePath p)) = false := by
    unfold Disk.existsSync
    simp [h2]
  constructor <;>
  · unfold FileResolver.readAutoInputFileSync readAutoAfterOutput FileResolver.resolveImplicitInput
    simp [hres, hex, h3, h4, truthyContent, freshOutputInfo]

theorem readAuto_input_read_error (d : Disk) (r : FileResolver) (p rp : String)
    (h1 : lookupAssoc r.outputMap (normalizePath p) = none)
    (h2 : d (getNativePath r.outputPath (normalizePath p)) = .absent)
    (h3 : lookupAssoc r.inputMap (normalizePath p) = none)
    (h4 : (r.inputPaths.map (fun root => getNativePath root (normalizePath p))).find?
        (fun c => d.existsSync c) = some rp)
    (h5 : d rp = .unreadable) :
    (FileResolver.readAutoInputFileSync d r p).1 = RAResult.ret none true := by
  have hres := resolveImplicitOutput_fresh d r p h1
  have hex : d.existsSync (getNativePath r.outputPath (normalizePath p)) = false := by
    unfold Disk.existsSync
    simp [h2]
  unfold FileResolver.readAutoInputFileSync readAutoAfterOutput FileResolver.resolveImplicitInput
  simp [hres, hex, h3, h4, truthyContent, freshOutputInfo, readFileSyncNoThrow, h5]

/-- C7 as amended: the resolver level `readAuto` treats absence from all roots
(no tracked output record or content, no input root holding the path) as the
non-error result `(null, null)` with no disk read attempted; the boundary
calls however THROW an `Input File Not Found` error on that same absence; and
for a non-absence read failure, `readTxt` propagates the error as a throw
while `readJson` and `readTsv` RETURN the caught error object to the caller
instead of throwing it. -/
theorem c7_notfound_vs_error_behavior :
    (∀ (d : Disk) (r : FileResolver) (p : String),
      lookupAssoc r.outputMap (normalizePath p) = none →
      d (getNativePath r.outputPath (normalizePath p)) = .absent →
      lookupAssoc r.inputMap (normalizePath p) = none →
      (r.inputPaths.map (fun root => getNativePath root (normalizePath p))).find?
        (fun c => d.existsSync c) = none →
      (FileResolver.readAutoInputFileSync d r p).1 = RAResult.ret none false ∧
      (FileResolver.readAutoInputFileSync d r p).2.2 = [] ∧
      (SimD2RMM.readTxt d r p).1 = BoundaryOutcome.threwNotFound ∧
      (∀ tryParse, (SimD2RMM.readJson tryParse d r p).1 = BoundaryOutcome.threwNotFound) ∧
      (SimD2RMM.readTsv d r p).1 = BoundaryOutcome.threwNotFound) ∧
    (∀ (d : Disk) (r : FileResolver) (p rp : String),
      lookupAssoc r.outputMap (normalizePath p) = none →
      d (getNativePath r.outputPath (normalizePath p)) = .absent →
      lookupAssoc r.inputMap (normalizePath p) = none →
      (r.inputPaths.map (fun root => getNativePath root (normalizePath p))).find?
        (fun c => d.existsSync c) = some rp →
      d rp = .unreadable →
      (FileResolver.readAutoInputFileSync d r p).1 = RAResult.ret none true ∧
      (SimD2RMM.readTxt d r p).1 = BoundaryOutcome.threwIoError ∧
      (∀ tryParse, (SimD2RMM.readJson tryParse d r p).1 = BoundaryOutcome.retError) ∧
      (SimD2RMM.readTsv d r p).1 = BoundaryOutcome.retError) := by
  constructor
  · intro d r p h1 h2 h3 h4
    obtain ⟨ha, hb⟩ := readAuto_absent_all_roots d r p h1 h2 h3 h4
    refine ⟨ha, hb, ?_, ?_, ?_⟩
    · unfold SimD2RMM.readTxt
      rw [show FileResolver.readAutoInputFileSync d r p =
        (RAResult.ret none false, (FileResolver.readAutoInputFileSync d r p).2.1,
          (FileResolver.readAutoInputFileSync d r p).2.2) from by rw [← ha]]
      rfl
    · intro tryParse
      unfold SimD2RMM.readJson
      rw [show FileResolver.readAutoInputFileSync d r p =
        (RAResult.ret none false, (FileResolver.readAutoInputFileSync d r p).2.1,
          (FileResolver.readAutoInputFileSync d r p).2.2) from by rw [← ha]]
      rfl
    · unfold SimD2RMM.readTsv
      rw [show FileResolver.readAutoInputFileSync d r p =
        (RAResult.ret none false, (FileResolver.readAutoInputFileSync d r p).2.1,
          (FileResolver.readAutoInputFileSync d r p).2.2) from by rw [← ha]]
      rfl
  · intro d r p rp h1 h2 h3 h4 h5
    have ha := readAuto_input_read_error d r p rp h1 h2 h3 h4 h5
    refine ⟨ha, ?_, ?_, ?_⟩
    · unfold SimD2RMM.readTxt
      rw [show FileResolver.readAutoInputFileSync d r p =
        (RAResult.ret none true, (FileResolver.readAutoInputFileSync d r p).2.1,
          (FileResolver.readAutoInputFileSync d r p).2.2) from by rw [← ha]]
      rfl
    · intro tryParse
      unfold SimD2RMM.readJson
      rw [show FileResolver.readAutoInputFileSync d r p =
        (RAResult.ret none true, (FileResolver.readAutoInputFileSync d r p).2.1,
          (FileResolver.readAutoInputFileSync d r p).2.2) from by rw [← ha]]
      rfl
    · unfold SimD2RMM.readTsv
      rw [show FileResolver.readAutoInputFileSync d r p =
        (RAResult.ret none true, (FileResolver.readAutoInputFileSync d r p).2.1,
          (FileResolver.readAutoInputFileSync d r p).2.2) from by rw [← ha]]
      rfl

/-- Disk whose single input-root file exists but fails to read (non-ENOENT
I/O error). -/
def exDiskUnreadable : Disk := fun p => if p = "/in/bad.txt" then .unreadable else .absent

/-- C7 fails as stated: on a path absent from all roots the boundary call
`readTxt` throws `Input File Not Found` instead of yielding a null result
without error, and on a genuine read failure `readJson` RETURNS the error
object to the caller instead of throwing it. -/
theorem c7_counterexample :
    (SimD2RMM.readTxt (fun _ => DiskEntry.absent) exResolver "nope.txt").1 =
      BoundaryOutcome.threwNotFound ∧
    (SimD2RMM.readJson (fun _ => some (JsonVal.val 0)) exDiskUnreadable exResolver "bad.txt").1 =
      BoundaryOutcome.retError := by
  exact ⟨by decide, by decide⟩

theorem c7_notfound_vs_error_behavior_witness :
    (SimD2RMM.readTsv (fun _ => DiskEntry.absent) exResolver "nope.txt").1 =
      BoundaryOutcome.threwNotFound ∧
    (SimD2RMM.readTsv exDiskUnreadable exResolver "bad.txt").1 =
      BoundaryOutcome.retError := by
  refine ⟨(c7_notfound_vs_error_behavior.1 (fun _ => DiskEntry.absent) exResolver "nope.txt"
      (by decide) (by decide) (by decide) (by decide)).2.2.2.2, ?_⟩
  exact (c7_notfound_vs_error_behavior.2 exDiskUnreadable exResolver "bad.txt" "/in/bad.txt"
      (by decide) (by decide) (by decide) (by decide) (by decide)).2.2.2

theorem takeWhile_digit_run (run post : Str)
    (hrund : ∀ c ∈ run, c.isDigit = true)
    (hpost : ∀ c, post.head? = some c → c.isDigit = false) :
    (run ++ post).takeWhile Char.isDigit = run ∧
    (run ++ post).dropWhile Char.isDigit = post := by
  induction run with
  | nil =>
    cases post with
    | nil => exact ⟨rfl, rfl⟩
    | cons c t =>
      have hc := hpost c rfl
      constructor
      · simp [List.takeWhile_cons, hc]
      · simp [List.dropWhile_cons, hc]
  | cons a run' ih =>
    have ha := hrund a (List.mem_cons_self _ _)
    obtain ⟨h1, h2⟩ := ih (fun c hc => hrund c (List.mem_cons_of_mem _ hc)) 
    constructor
    · simp [List.takeWhile_cons, ha, h1]
    · simp [List.dropWhile_cons, ha, h2]

theorem firstDigitRun_decompose (pre run post : Str)
    (hpre : ∀ c ∈ pre, c.isDigit = false)
    (hrun : run ≠ []) (hrund : ∀ c ∈ run, c.isDigit = true)
    (hpost : ∀ c, post.head? = some c → c.isDigit = false) :
    firstDigitRun (pre ++ run ++ post) = some (pre, run, post) := by
  induction pre with
  | nil =>
    cases run with
    | nil => exact absurd rfl hrun
    | cons a run' =>
      have ha := hrund a (List.mem_cons_self _ _)
      obtain ⟨h1, h2⟩ := takeWhile_digit_run (a :: run') post hrund hpost
      simp only [List.nil_append, List.cons_append] at h1 h2 ⊢
      unfold firstDigitRun
      rw [ha]
      simp [h1, h2]
  | cons c pre' ih =>
    have hc := hpre c (List.mem_cons_self _ _)
    have ih' := ih (fun x hx => hpre x (List.mem_cons_of_mem _ hx))
    have ih2 : firstDigitRun (pre' ++ (run ++ post)) = some (pre', run, post) := by
      simpa [List.append_assoc] using ih'
    simp only [List.cons_append]
    unfold firstDigitRun
    rw [hc]
    simp [ih2]

theorem updateNextStringID_decompose (pre run post : Str) (n : Nat)
    (hpre : ∀ c ∈ pre, c.isDigit = false)
    (hrun : run ≠ []) (hrund : ∀ c ∈ run, c.isDigit = true)
    (hpost : ∀ c, post.head? = some c → c.isDigit = false) :
    updateNextStringID (pre ++ run ++ post) n = pre ++ (toString n).toList ++ post ∧
    parseNextStringID (pre ++ run ++ post) = some (natOfDigits run) := by
  have h := firstDigitRun_decompose pre run post hpre hrun hrund hpost
  constructor
  · unfold updateNextStringID
    rw [h]
  · unfold parseNextStringID
    rw [h]

theorem acquireNextStringID_load (d : Disk) (r : FileResolver) (s : Str) (v : Nat)
    (hneg : r.nextStringID < 0)
    (hread : (FileResolver.readAutoInputFileSync d r kNextStringIDPath).1 =
      RAResult.ret (some s) false)
    (hparse : parseNextStringID s = some v) :
    FileResolver.acquireNextStringID d r =
      some ((v : Int),
        { (FileResolver.readAutoInputFileSync d r kNextStringIDPath).2.1 with
            nextStringID := (v : Int) + 1 }) := by
  unfold FileResolver.acquireNextStringID
  rcases hx : FileResolver.readAutoInputFileSync d r kNextStringIDPath with ⟨res, r', reads⟩
  rw [hx] at hread
  simp only at hread
  subst hread
  simp [hneg, hparse]

theorem acquireNextStringID_loaded (d : Disk) (r : FileResolver)
    (hpos : 0 ≤ r.nextStringID) :
    FileResolver.acquireNextStringID d r =
      some (r.nextStringID, { r with nextStringID := r.nextStringID + 1 }) := by
  unfold FileResolver.acquireNextStringID
  have hlt : ¬(r.nextStringID < 0) := by omega
  simp [hlt]

theorem resolveImplicitOutput_outputPath (d : Disk) (r : FileResolver) (p : String) :
    (FileResolver.resolveImplicitOutput d r p).2.outputPath = r.outputPath := by
  unfold FileResolver.resolveImplicitOutput
  cases h : lookupAssoc r.outputMap (normalizePath p) <;> simp [h]

theorem writeOutputFile_dirty_write (d : Disk) (r : FileResolver) (p : String) (c : Str)
    (hdiff : some c ≠ (FileResolver.resolveImplicitOutput d r p).1.content)
    (hpass : ((resolveParentDir r.outputPath).toList.isPrefixOf
      (FileResolver.resolveImplicitOutput d r p).1.realPath.toList) = true) :
    (FileResolver.writeOutputFile d r p c).map Prod.snd =
      some [FlushEv.mkdir (dirname (FileResolver.resolveImplicitOutput d r p).1.realPath),
        FlushEv.write (FileResolver.resolveImplicitOutput d r p).1.realPath (some c)] := by
  have hupd : FileResolver.updateOutputFile d r p c =
      ({ (FileResolver.resolveImplicitOutput d r p).1 with dirty := true, content := some c },
        { (FileResolver.resolveImplicitOutput d r p).2 with
            outputMap := setAssoc (FileResolver.resolveImplicitOutput d r p).2.outputMap
              (normalizePath p)
              { (FileResolver.resolveImplicitOutput d r p).1 with
                  dirty := true, content := some c } }) := by
    unfold FileResolver.updateOutputFile
    simp [fun hc => hdiff hc]
  have hre : FileResolver.resolveImplicitOutput d (FileResolver.updateOutputFile d r p c).2 p =
      ((FileResolver.updateOutputFile d r p c).1, (FileResolver.updateOutputFile d r p c).2) := by
    refine resolveImplicitOutput_of_mem _ _ _ _ ?_
    rw [hupd]
    exact lookupAssoc_setAssoc _ _ _
  have hpass2 : (resolveParentDir r.outputPath).data <+:
      (FileResolver.resolveImplicitOutput d r p).1.realPath.data :=
    List.isPrefixOf_iff_prefix.mp hpass
  have houtPath : (FileResolver.updateOutputFile d r p c).2.outputPath = r.outputPath := by
    rw [hupd]
    exact resolveImplicitOutput_outputPath d r p
  have hi : (FileResolver.updateOutputFile d r p c).1 =
      { (FileResolver.resolveImplicitOutput d r p).1 with dirty := true, content := some c } := by
    rw [hupd]
  have hfl : flush1Ex (FileResolver.updateOutputFile d r p c).2.outputPath
      (FileResolver.updateOutputFile d r p c).1 =
      { threw := false,
        info := { (FileResolver.resolveImplicitOutput d r p).1 with
          dirty := false, content := some c },
        events := [FlushEv.mkdir (dirname (FileResolver.resolveImplicitOutput d r p).1.realPath),
          FlushEv.write (FileResolver.resolveImplicitOutput d r p).1.realPath (some c)] } := by
    rw [houtPath, hi]
    unfold flush1Ex
    simp [hpass2]
  simp only [FileResolver.writeOutputFile, FileResolver.flush1]
  rw [hre]
  simp [hfl]

theorem flushNextStringID_single_write (d : Disk) (r : FileResolver) (s : Str)
    (hpos : 0 ≤ r.nextStringID)
    (hread : (FileResolver.readAutoInputFileSync d r kNextStringIDPath).1 =
      RAResult.ret (some s) false)
    (hdiff : some (updateNextStringID s r.nextStringID.toNat) ≠
      (FileResolver.resolveImplicitOutput d
        (FileResolver.readAutoInputFileSync d r kNextStringIDPath).2.1
        kNextStringIDPath).1.content)
    (hpass : ((resolveParentDir
        (FileResolver.readAutoInputFileSync d r kNextStringIDPath).2.1.outputPath).toList.isPrefixOf
      (FileResolver.resolveImplicitOutput d
        (FileResolver.readAutoInputFileSync d r kNextStringIDPath).2.1
        kNextStringIDPath).1.realPath.toList) = true) :
    (FileResolver.flushNextStringID d r).map Prod.snd =
      some [FlushEv.mkdir (dirname (FileResolver.resolveImplicitOutput d
          (FileResolver.readAutoInputFileSync d r kNextStringIDPath).2.1
          kNextStringIDPath).1.realPath),
        FlushEv.write (FileResolver.resolveImplicitOutput d
          (FileResolver.readAutoInputFileSync d r kNextStringIDPath).2.1
          kNextStringIDPath).1.realPath
          (some (updateNextStringID s r.nextStringID.toNat))] := by
  have hw := writeOutputFile_dirty_write d
    (FileResolver.readAutoInputFileSync d r kNextStringIDPath).2.1 kNextStringIDPath
    (updateNextStringID s r.nextStringID.toNat) hdiff hpass
  have hlt : ¬(r.nextStringID < 0) := by omega
  unfold FileResolver.flushNextStringID
  rcases hx : FileResolver.readAutoInputFileSync d r kNextStringIDPath with ⟨res, r', reads⟩
  rw [hx] at hread hw
  simp only at hread hw
  subst hread
  simp [hlt, hw]

/-- C9: the string-id counter (i) lazily loads from the id-ledger record on
the first `acquireNextStringID` call, returns the parsed value, and each
successive call returns the next strictly larger integer; (ii)
`updateNextStringID` replaces exactly the first maximal run of decimal digits
in the ledger text, leaving every other character in place, while
`parseNextStringID` reads that same run; (iii) at run end
`flushNextStringID` — invoked exactly once, by the single `flush()` of the
task — persists the counter through exactly one write of the ledger's real
path, whose content is the ledger text with only the digit run replaced. -/
theorem c9_string_id_counter :
    (∀ (d : Disk) (r : FileResolver) (s : Str) (v : Nat),
      r.nextStringID < 0 →
      (FileResolver.readAutoInputFileSync d r kNextStringIDPath).1 =
        RAResult.ret (some s) false →
      parseNextStringID s = some v →
      FileResolver.acquireNextStringID d r =
        some ((v : Int),
          { (FileResolver.readAutoInputFileSync d r kNextStringIDPath).2.1 with
              nextStringID := (v : Int) + 1 }) ∧
      FileResolver.acquireNextStringID d
          { (FileResolver.readAutoInputFileSync d r kNextStringIDPath).2.1 with
              nextStringID := (v : Int) + 1 } =
        some ((v : Int) + 1,
          { (FileResolver.readAutoInputFileSync d r kNextStringIDPath).2.1 with
              nextStringID := (v : Int) + 1 + 1 }) ∧
      (v : Int) < (v : Int) + 1) ∧
    (∀ (pre run post : Str) (n : Nat),
      (∀ c ∈ pre, c.isDigit = false) → run ≠ [] → (∀ c ∈ run, c.isDigit = true) →
      (∀ c, post.head? = some c → c.isDigit = false) →
      updateNextStringID (pre ++ run ++ post) n = pre ++ (toString n).toList ++ post ∧
      parseNextStringID (pre ++ run ++ post) = some (natOfDigits run)) ∧
    (∀ (d : Disk) (r : FileResolver) (s : Str),
      0 ≤ r.nextStringID →
      (FileResolver.readAutoInputFileSync d r kNextStringIDPath).1 =
        RAResult.ret (some s) false →
      some (updateNextStringID s r.nextStringID.toNat) ≠
        (FileResolver.resolveImplicitOutput d
          (FileResolver.readAutoInputFileSync d r kNextStringIDPath).2.1
          kNextStringIDPath).1.content →
      ((resolveParentDir
          (FileResolver.readAutoInputFileSync d r kNextStringIDPath).2.1.outputPath).toList.isPrefixOf
        (FileResolver.resolveImplicitOutput d
          (FileResolver.readAutoInputFileSync d r kNextStringIDPath).2.1
          kNextStringIDPath).1.realPath.toList) = true →
      (FileResolver.flushNextStringID d r).map Prod.snd =
        some [FlushEv.mkdir (dirname (FileResolver.resolveImplicitOutput d
            (FileResolver.readAutoInputFileSync d r kNextStringIDPath).2.1
            kNextStringIDPath).1.realPath),
          FlushEv.write (FileResolver.resolveImplicitOutput d
            (FileResolver.readAutoInputFileSync d r kNextStringIDPath).2.1
            kNextStringIDPath).1.realPath
            (some (updateNextStringID s r.nextStringID.toNat))]) := by
  refine ⟨?_, ?_, ?_⟩
  · intro d r s v hneg hread hparse
    refine ⟨acquireNextStringID_load d r s v hneg hread hparse, ?_, by omega⟩
    have h2 := acquireNextStringID_loaded d
      { (FileResolver.readAutoInputFileSync d r kNextStringIDPath).2.1 with
          nextStringID := (v : Int) + 1 }
      (by simp; omega)
    exact h2
  · intro pre run post n hpre hrun hrund hpost
    exact updateNextStringID_decompose pre run post n hpre hrun hrund hpost
  · intro d r s hpos hread hdiff hpass
    exact flushNextStringID_single_write d r s hpos hread hdiff hpass

/-- Disk whose base input root carries the id ledger `ID=0042;x`. -/
def exLedgerDisk : Disk := fun p =>
  if p = "/in/local/lng/next_string_id.txt" then .file "ID=0042;x".toList else .absent

/-- The resolver state after the first allocation loaded counter 42. -/
def rLedgerLoaded : FileResolver :=
  { (FileResolver.readAutoInputFileSync exLedgerDisk exResolver kNextStringIDPath).2.1 with
      nextStringID := ((42 : Nat) : Int) + 1 }

theorem c9_string_id_counter_witness :
    FileResolver.acquireNextStringID exLedgerDisk exResolver =
      some (((42 : Nat) : Int), rLedgerLoaded) ∧
    updateNextStringID ("ID=".toList ++ "0042".toList ++ ";x".toList) 77 =
      "ID=".toList ++ (toString 77).toList ++ ";x".toList ∧
    (FileResolver.flushNextStringID exLedgerDisk rLedgerLoaded).map Prod.snd =
      some [FlushEv.mkdir (dirname (FileResolver.resolveImplicitOutput exLedgerDisk
          (FileResolver.readAutoInputFileSync exLedgerDisk rLedgerLoaded
            kNextStringIDPath).2.1 kNextStringIDPath).1.realPath),
        FlushEv.write (FileResolver.resolveImplicitOutput exLedgerDisk
          (FileResolver.readAutoInputFileSync exLedgerDisk rLedgerLoaded
            kNextStringIDPath).2.1 kNextStringIDPath).1.realPath
          (some (updateNextStringID "ID=0042;x".toList rLedgerLoaded.nextStringID.toNat))] := by
  obtain ⟨h1, h2, h3⟩ := c9_string_id_counter
  refine ⟨?_, ?_, ?_⟩
  · exact (h1 exLedgerDisk exResolver "ID=0042;x".toList 42 (by decide) (by decide)
      (by decide)).1
  · exact (h2 "ID=".toList "0042".toList ";x".toList 77 (by decide) (by decide) (by decide)
      (by decide)).1
  · exact h3 exLedgerDisk rLedgerLoaded "ID=0042;x".toList (by decide) (by decide) (by decide)
      (by decide)

theorem splitOnChar_ne_nil (c : Char) (s : Str) : splitOnChar c s ≠ [] := by
  induction s with
  | nil => simp [splitOnChar]
  | cons x xs ih =>
    unfold splitOnChar
    cases h : splitOnChar c xs with
    | nil => exact absurd h ih
    | cons y ys => by_cases hxc : x = c <;> simp [hxc]

theorem splitOnChar_of_not_mem (c : Char) (p : Str) (h : c ∉ p) : splitOnChar c p = [p] := by
  induction p with
  | nil => rfl
  | cons x xs ih =>
    have hx : x ≠ c := fun he => h (he ▸ List.mem_cons_self _ _)
    have ihh := ih (fun hm => h (List.mem_cons_of_mem _ hm))
    unfold splitOnChar
    rw [ihh]
    simp [hx]

theorem splitOnChar_append_left (c : Char) (p t y : Str) (ys : List Str)
    (hp : c ∉ p) (ht : splitOnChar c t = y :: ys) :
    splitOnChar c (p ++ t) = (p ++ y) :: ys := by
  induction p with
  | nil => simpa using ht
  | cons x xs ih =>
    have hx : x ≠ c := fun he => hp (he ▸ List.mem_cons_self _ _)
    have ihh := ih (fun hm => hp (List.mem_cons_of_mem _ hm))
    simp only [List.cons_append]
    unfold splitOnChar
    rw [ihh]
    simp [hx]

theorem splitOnChar_cons_sep (c : Char) (t : Str) :
    splitOnChar c (c :: t) = [] :: splitOnChar c t := by
  conv_lhs => unfold splitOnChar
  cases h : splitOnChar c t with
  | nil => exact absurd h (splitOnChar_ne_nil c t)
  | cons y ys => simp

theorem splitOnChar_intercalateChar (c : Char) (parts : List Str)
    (hne : parts ≠ []) (h : ∀ p ∈ parts, c ∉ p) :
    splitOnChar c (intercalateChar c parts) = parts := by
  induction parts with
  | nil => exact absurd rfl hne
  | cons p ps ih =>
    cases ps with
    | nil =>
      simp only [intercalateChar]
      exact splitOnChar_of_not_mem c p (h p (List.mem_cons_self _ _))
    | cons q ps' =>
      have hrest := ih (by simp) (fun x hx => h x (List.mem_cons_of_mem _ hx))
      have hp := h p (List.mem_cons_self _ _)
      have hI : intercalateChar c (p :: q :: ps') = p ++ c :: intercalateChar c (q :: ps') := rfl
      rw [hI]
      have h4 := splitOnChar_cons_sep c (intercalateChar c (q :: ps'))
      rw [hrest] at h4
      simpa using splitOnChar_append_left c p _ [] (q :: ps') hp h4

theorem mem_intercalateChar (c : Char) (parts : List Str) (x : Char)
    (hx : x ∈ intercalateChar c parts) : x = c ∨ ∃ p ∈ parts, x ∈ p := by
  induction parts with
  | nil => simp [intercalateChar] at hx
  | cons p ps ih =>
    cases ps with
    | nil =>
      simp only [intercalateChar] at hx
      exact Or.inr ⟨p, List.mem_cons_self _ _, hx⟩
    | cons q ps' =>
      have hI : intercalateChar c (p :: q :: ps') = p ++ c :: intercalateChar c (q :: ps') := rfl
      rw [hI] at hx
      rcases List.mem_append.mp hx with h1 | h2
      · exact Or.inr ⟨p, List.mem_cons_self _ _, h1⟩
      · rcases List.mem_cons.mp h2 with h3 | h4
        · exact Or.inl h3
        · rcases ih h4 with h5 | ⟨w, hw1, hw2⟩
          · exact Or.inl h5
          · exact Or.inr ⟨w, List.mem_cons_of_mem _ hw1, hw2⟩

theorem not_mem_intercalateChar (c x : Char) (parts : List Str)
    (hxc : x ≠ c) (h : ∀ p ∈ parts, x ∉ p) : x ∉ intercalateChar c parts := by
  intro hx
  rcases mem_intercalateChar c parts x hx with h1 | ⟨p, hp, hxp⟩
  · exact hxc h1
  · exact h p hp hxp

theorem objGet_map_zip (headers values : List Str)
    (hnd : headers.Nodup) (hlen : values.length = headers.length) :
    headers.map (fun h => (objGet (headers.zip values) h).getD []) = values := by
  induction headers generalizing values with
  | nil =>
    cases values with
    | nil => rfl
    | cons v vs => simp at hlen
  | cons h hs ih =>
    cases values with
    | nil => simp at hlen
    | cons v vs =>
      have hlen' : vs.length = hs.length := by simpa using hlen
      have hnotin : h ∉ hs := (List.nodup_cons.mp hnd).1
      have hnd' : hs.Nodup := (List.nodup_cons.mp hnd).2
      simp only [List.zip_cons_cons, List.map_cons]
      congr 1
      · simp [objGet]
      · have hcong : ∀ h' ∈ hs,
            (objGet ((h, v) :: hs.zip vs) h').getD [] = (objGet (hs.zip vs) h').getD [] := by
          intro h' hh'
          have hne : h ≠ h' := fun he => hnotin (he ▸ hh')
          simp [objGet, hne]
        rw [List.map_congr_left hcong]
        exact ih vs hnd' hlen'

theorem objSet_of_not_mem (row : TsvRow) (k v : Str)
    (h : ∀ kv ∈ row, kv.1 ≠ k) : objSet row k v = row ++ [(k, v)] := by
  induction row with
  | nil => rfl
  | cons kv t ih =>
    obtain ⟨k', v'⟩ := kv
    have h1 : k' ≠ k := h (k', v') (List.mem_cons_self _ _)
    simp [objSet, h1, ih (fun x hx => h x (List.mem_cons_of_mem _ hx))]

theorem getElem_not_mem_drop (l : List Str) (i : Nat) (hi : i < l.length)
    (hnd : l.Nodup) : l[i] ∉ l.drop (i + 1) := by
  have hsub : List.Sublist (l.drop i) l := List.drop_sublist i l
  have hnd2 : (l.drop i).Nodup := hsub.nodup hnd
  rw [List.drop_eq_getElem_cons hi] at hnd2
  exact (List.nodup_cons.mp hnd2).1

theorem readTsvRowAux_zip (headers : List Str) (hnd : headers.Nodup)
    (values : List Str) :
    ∀ (i : Nat) (acc : TsvRow),
      i + values.length = headers.length →
      (∀ kv ∈ acc, kv.1 ∉ headers.drop i) →
      readTsvRowAux headers i acc values = acc ++ (headers.drop i).zip values := by
  induction values with
  | nil =>
    intro i acc _ _
    simp [readTsvRowAux]
  | cons v vs ih =>
    intro i acc hlen hacc
    have hi : i < headers.length := by
      simp at hlen
      omega
    have hdrop : headers.drop i = headers[i] :: headers.drop (i + 1) :=
      List.drop_eq_getElem_cons hi
    have hkey : headerKeyAt headers i = headers[i] := by
      unfold headerKeyAt
      simp [List.get?_eq_getElem?, hi]
    have hnotacc : ∀ kv ∈ acc, kv.1 ≠ headers[i] := by
      intro kv hkv he
      refine hacc kv hkv ?_
      rw [hdrop, he]
      exact List.mem_cons_self _ _
    have hset : objSet acc (headerKeyAt headers i) v = acc ++ [(headers[i], v)] := by
      rw [hkey]
      exact objSet_of_not_mem acc _ v hnotacc
    have hacc2 : ∀ kv ∈ acc ++ [(headers[i], v)], kv.1 ∉ headers.drop (i + 1) := by
      intro kv hkv
      rcases List.mem_append.mp hkv with h1 | h2
      · intro hmem
        refine hacc kv h1 ?_
        rw [hdrop]
        exact List.mem_cons_of_mem _ hmem
      · have hkv2 : kv = (headers[i], v) := by simpa using h2
        subst hkv2
        exact getElem_not_mem_drop headers i hi hnd
    have hstep := ih (i + 1) (acc ++ [(headers[i], v)]) (by simp at hlen ⊢; omega) hacc2
    unfold readTsvRowAux
    rw [hset, hstep, hdrop, List.zip_cons_cons]
    simp

theorem zip_map_fst_snd_self (row : TsvRow) :
    (row.map Prod.fst).zip (row.map Prod.snd) = row := by
  induction row with
  | nil => rfl
  | cons kv t ih => simp [ih]

/-- C8 as amended: the tabular round-trip `readTsvContent (writeTsvContent
headers rows) = (headers, rows)` holds for every nonempty duplicate-free
header list whose names contain no tab or newline, and every row list in
which each row binds exactly the headers in header order to tab- and
newline-free string values and serializes to a nonempty line.  (Outside these
conditions the round-trip genuinely fails: rows with missing fields come back
with the field present and empty, and a row serializing to the empty string is
silently dropped by the blank-line skip.) -/
theorem c8_tsv_roundtrip (headers : List Str) (rows : List TsvRow)
    (hne : headers ≠ [])
    (hnd : headers.Nodup)
    (hh : ∀ h ∈ headers, '\t' ∉ h ∧ '\n' ∉ h)
    (hr : ∀ row ∈ rows,
      row.map Prod.fst = headers ∧
      (∀ kv ∈ row, '\t' ∉ kv.2 ∧ '\n' ∉ kv.2) ∧
      intercalateChar '\t' (row.map Prod.snd) ≠ []) :
    readTsvContent (writeTsvContent headers rows) = (headers, rows) := by
  have hrowzip : ∀ row ∈ rows, headers.zip (row.map Prod.snd) = row := by
    intro row hrow
    rw [← (hr row hrow).1]
    exact zip_map_fst_snd_self row
  have hrowlen : ∀ row ∈ rows, (row.map Prod.snd).length = headers.length := by
    intro row hrow
    rw [← (hr row hrow).1]
    simp
  have hwriterow : ∀ row ∈ rows,
      (headers.map fun header => (objGet row header).getD []) = row.map Prod.snd := by
    intro row hrow
    have h1 := objGet_map_zip headers (row.map Prod.snd) hnd (hrowlen row hrow)
    rw [hrowzip row hrow] at h1
    exact h1
  have hcontent : writeTsvContent headers rows =
      intercalateChar '\n' (intercalateChar '\t' headers ::
        (rows.map (fun row => intercalateChar '\t' (row.map Prod.snd)) ++ [[]])) := by
    unfold writeTsvContent
    have hmap : rows.map (fun row =>
        intercalateChar '\t' (headers.map fun header => (objGet row header).getD [])) =
        rows.map (fun row => intercalateChar '\t' (row.map Prod.snd)) :=
      List.map_congr_left (fun row hrow => by rw [hwriterow row hrow])
    rw [hmap]
  have hsplit : splitOnChar '\n' (writeTsvContent headers rows) =
      intercalateChar '\t' headers ::
        (rows.map (fun row => intercalateChar '\t' (row.map Prod.snd)) ++ [[]]) := by
    rw [hcontent]
    refine splitOnChar_intercalateChar '\n' _ (by simp) ?_
    intro part hpart
    rcases List.mem_cons.mp hpart with h1 | h2
    · subst h1
      exact not_mem_intercalateChar '\t' '\n' headers (by decide)
        (fun p hp => (hh p hp).2)
    · rcases List.mem_append.mp h2 with h3 | h4
      · obtain ⟨row, hrow, hpart2⟩ := List.mem_map.mp h3
        subst hpart2
        refine not_mem_intercalateChar '\t' '\n' _ (by decide) ?_
        intro p hp
        obtain ⟨kv, hkv, hkvp⟩ := List.mem_map.mp hp
        subst hkvp
        exact ((hr row hrow).2.1 kv hkv).2
      · have : part = [] := by simpa using h4
        subst this
        simp
  have hheaders : splitOnChar '\t' (intercalateChar '\t' headers) = headers :=
    splitOnChar_intercalateChar '\t' headers hne (fun p hp => (hh p hp).1)
  have hrowparse : ∀ row ∈ rows,
      readTsvRow headers (intercalateChar '\t' (row.map Prod.snd)) = row := by
    intro row hrow
    have hvals : splitOnChar '\t' (intercalateChar '\t' (row.map Prod.snd)) =
        row.map Prod.snd := by
      refine splitOnChar_intercalateChar '\t' _ ?_ ?_
      · intro hnil
        have hlen := hrowlen row hrow
        rw [hnil] at hlen
        simp at hlen
        exact hne (List.length_eq_zero.mp hlen.symm)
      · intro p hp
        obtain ⟨kv, hkv, hkvp⟩ := List.mem_map.mp hp
        subst hkvp
        exact ((hr row hrow).2.1 kv hkv).1
    unfold readTsvRow
    rw [hvals]
    have hlen0 : 0 + (row.map Prod.snd).length = headers.length := by
      have := hrowlen row hrow
      omega
    have haux := readTsvRowAux_zip headers hnd (row.map Prod.snd) 0 [] hlen0 (by simp)
    rw [haux]
    simpa using hrowzip row hrow
  have hfilter : (rows.map (fun (row : TsvRow) => intercalateChar '\t' (row.map Prod.snd)) ++
      [[]]).filterMap (fun (rowStr : Str) =>
        if rowStr = [] then none else some (readTsvRow headers rowStr)) = rows := by
    rw [List.filterMap_append]
    have h0 : (([[]] : List Str)).filterMap (fun rowStr =>
        if rowStr = [] then none else some (readTsvRow headers rowStr)) = [] := by simp
    rw [h0, List.append_nil, List.filterMap_map]
    have hcong2 : ∀ row ∈ rows,
        ((fun (rowStr : Str) => if rowStr = [] then none
          else some (readTsvRow headers rowStr)) ∘
          (fun (row : TsvRow) => intercalateChar '\t' (row.map Prod.snd))) row = some row := by
      intro row hrow
      simp only [Function.comp_apply]
      rw [if_neg (hr row hrow).2.2, hrowparse row hrow]
    calc rows.filterMap ((fun rowStr => if rowStr = [] then none
            else some (readTsvRow headers rowStr)) ∘
            (fun (row : TsvRow) => intercalateChar '\t' (row.map Prod.snd)))
        = rows.filterMap some := List.filterMap_congr hcong2
      _ = rows := List.filterMap_some rows
  unfold readTsvContent
  simp only [hsplit]
  rw [hheaders, hfilter]

/-- C8 fails as universally stated: a single-column row whose only value is
the empty string serializes to an empty line, which the reader's blank-line
skip silently drops — the row list does not survive the round trip. -/
theorem c8_counterexample :
    readTsvContent (writeTsvContent ["a".toList] [[("a".toList, ([] : Str))]]) =
      (["a".toList], []) ∧
    ([] : List TsvRow) ≠ [[("a".toList, ([] : Str))]] := by
  exact ⟨by decide, by decide⟩

theorem c8_tsv_roundtrip_witness :
    readTsvContent (writeTsvContent ["a".toList, "b".toList]
      [[("a".toList, "x".toList), ("b".toList, ([] : Str))],
       [("a".toList, ([] : Str)), ("b".toList, "y".toList)]]) =
      (["a".toList, "b".toList],
       [[("a".toList, "x".toList), ("b".toList, ([] : Str))],
        [("a".toList, ([] : Str)), ("b".toList, "y".toList)]]) := by
  refine c8_tsv_roundtrip _ _ (by decide) (by decide) (by decide) ?_
  intro row hrow
  rcases List.mem_cons.mp hrow with h1 | h2
  · subst h1
    refine ⟨by decide, by decide, by decide⟩
  · have h3 : row = [("a".toList, ([] : Str)), ("b".toList, "y".toList)] := by
      simpa using h2
    subst h3
    refine ⟨by decide, by decide, by decide⟩
